import Mathlib

/-!
Verification of the scoring/settlement core of the F1GameBot repository.

The definitions below are a shallow embedding of the Python services:
`services/result_service.py`, `services/bet_service.py`,
`services/scoring_service.py`, `services/race_service.py`, and the
SQLAlchemy models of `database.py`.  Database tables are embedded as
Lean lists of rows (in insertion order, as SQLite returns them for the
unordered queries used by the code); SQLAlchemy sessions become explicit
state passing on a `DB` record.
-/

namespace F1Bot

/-- Row of the `race_results` table (model `RaceResult` in database.py). -/
structure RaceResultRow where
  race_id : Nat
  driver_1st : String
  driver_2nd : String
  driver_3rd : String
  deriving DecidableEq, Repr

/-- Row of the `bets` table (model `Bet` in database.py).  Timestamps are
abstract ticks (utcnow is monotone across calls). -/
structure BetRow where
  user_id : Nat
  race_id : Nat
  driver_1st : String
  driver_2nd : String
  driver_3rd : String
  created_at : Nat
  updated_at : Nat
  deriving DecidableEq, Repr

/-- Row of the `points_per_race` table (model `PointsPerRace` in database.py). -/
structure PointsRow where
  user_id : Nat
  race_id : Nat
  points : Int
  deriving DecidableEq, Repr

/-- Row of the `users` table (model `User` in database.py), the fields the
scoring core reads. -/
structure UserRow where
  id : Nat
  telegram_id : Int
  username : Option String
  full_name : Option String
  deriving DecidableEq, Repr

/-- Row of the `races` table (model `Race` in database.py), the fields the
scoring core reads. -/
structure RaceRow where
  id : Nat
  name : String
  date : String
  start_time : String
  timezone : String
  status : String
  deriving DecidableEq, Repr

/-- The persistent store: the five tables the core touches. -/
structure DB where
  users : List UserRow
  races : List RaceRow
  bets : List BetRow
  results : List RaceResultRow
  points : List PointsRow
  deriving DecidableEq, Repr

/-! ## Scoring a single bet (result_service._calculate_points_for_bet) -/

/-- The top-3 list `[result.driver_1st, result.driver_2nd, result.driver_3rd]`
that the membership test of `_calculate_points_for_bet` uses. -/
def top3 (result : RaceResultRow) : List String :=
  [result.driver_1st, result.driver_2nd, result.driver_3rd]

/-- `result_service._calculate_points_for_bet`: per slot, +3 for an exact
match, else +1 for membership in the top-3 list, else +0; the three slot
contributions are summed. -/
def calculate_points_for_bet (bet : BetRow) (result : RaceResultRow) : Nat :=
  (if bet.driver_1st = result.driver_1st then 3
   else if bet.driver_1st ∈ top3 result then 1 else 0)
  + (if bet.driver_2nd = result.driver_2nd then 3
     else if bet.driver_2nd ∈ top3 result then 1 else 0)
  + (if bet.driver_3rd = result.driver_3rd then 3
     else if bet.driver_3rd ∈ top3 result then 1 else 0)

/-- Spec-side per-slot rule of §4.4: +3 exact, else +1 if in top3, else 0. -/
def slotScore (pred actual : String) (t3 : List String) : Nat :=
  if pred = actual then 3 else if pred ∈ t3 then 1 else 0

/-- C1: the settlement score of a prediction is the sum of three independent
per-slot evaluations (3 for exact slot match, 1 for mere top-3 membership,
0 otherwise); it is at most 9; and a prediction that repeats one top-3
driver token in two wrong slots earns the +1 membership credit in each of
those two slots. -/
theorem score_is_sum_of_independent_slots (bet : BetRow) (result : RaceResultRow) :
    calculate_points_for_bet bet result =
      slotScore bet.driver_1st result.driver_1st (top3 result)
      + slotScore bet.driver_2nd result.driver_2nd (top3 result)
      + slotScore bet.driver_3rd result.driver_3rd (top3 result)
    ∧ calculate_points_for_bet bet result ≤ 9
    ∧ (bet.driver_1st = bet.driver_2nd → bet.driver_1st ≠ result.driver_1st →
        bet.driver_2nd ≠ result.driver_2nd → bet.driver_1st ∈ top3 result →
        calculate_points_for_bet bet result =
          2 + slotScore bet.driver_3rd result.driver_3rd (top3 result)) := by
  refine ⟨rfl, ?_, ?_⟩
  · unfold calculate_points_for_bet
    split_ifs <;> omega
  · intro hdup h1 h2 hmem
    unfold calculate_points_for_bet slotScore
    rw [if_neg h1, if_pos hmem, if_neg h2, if_pos (hdup ▸ hmem)]

/-- Witness for the hypotheses of `score_is_sum_of_independent_slots`:
prediction (LEC, LEC, ALO) against result (VER, HAM, LEC) earns the top-3
credit twice for the repeated token LEC. -/
theorem score_is_sum_of_independent_slots_witness :
    calculate_points_for_bet ⟨1, 1, "LEC", "LEC", "ALO", 0, 0⟩ ⟨1, "VER", "HAM", "LEC"⟩ =
      2 + slotScore "ALO" "LEC" (top3 ⟨1, "VER", "HAM", "LEC"⟩) :=
  (score_is_sum_of_independent_slots ⟨1, 1, "LEC", "LEC", "ALO", 0, 0⟩
      ⟨1, "VER", "HAM", "LEC"⟩).2.2 rfl (by decide) (by decide) (by decide)

/-! ## Settlement (result_service._calculate_and_save_points_sync)

The ledger upsert inside the settlement loop: the code looks up the first
`PointsPerRace` row with the given (user_id, race_id) (SQLite returns rows
in insertion order for this unordered `first()` query), updates its
`points` in place if found, else appends a fresh row (`session.add`, which
flushes before the next query in the loop). -/

/-- Update the first ledger row matching (uid, rid) in place, else append. -/
def upsertPoints : List PointsRow → Nat → Nat → Int → List PointsRow
  | [], uid, rid, v => [⟨uid, rid, v⟩]
  | r :: rs, uid, rid, v =>
    if r.user_id = uid ∧ r.race_id = rid then { r with points := v } :: rs
    else r :: upsertPoints rs uid rid v

/-- The `points` value of the first ledger row matching (uid, rid). -/
def lookupFirst : List PointsRow → Nat → Nat → Option Int
  | [], _, _ => none
  | r :: rs, uid, rid =>
    if r.user_id = uid ∧ r.race_id = rid then some r.points else lookupFirst rs uid rid

/-- Run a list of keyed upserts left to right (the settlement loop's writes). -/
def applyUpserts (ups : List ((Nat × Nat) × Int)) (l : List PointsRow) : List PointsRow :=
  ups.foldl (fun acc u => upsertPoints acc u.1.1 u.1.2 u.2) l

/-- Name shown in the settlement summary: `full_name` if the user exists and
has a truthy full name, else `username`, else "User {id}". -/
def userName (users : List UserRow) (uid : Nat) : Option String :=
  match users.find? (fun u => u.id = uid) with
  | some u => if u.full_name ≠ none ∧ u.full_name ≠ some "" then u.full_name else u.username
  | none => some ("User " ++ toString uid)

/-- One entry of the list returned by `_calculate_and_save_points_sync`. -/
structure SummaryEntry where
  user_id : Nat
  user_name : Option String
  points : Int
  deriving DecidableEq, Repr

/-- `result_service._calculate_and_save_points_sync`: fetch all bets of the
race, score each, upsert its ledger row, and collect a summary; the ledger
writes commit together at the end. -/
def calculate_and_save_points_sync (race_id : Nat) (result : RaceResultRow) (db : DB) :
    DB × List SummaryEntry :=
  let raceBets := db.bets.filter (fun b => b.race_id = race_id)
  let ups := raceBets.map (fun b =>
    ((b.user_id, race_id), (calculate_points_for_bet b result : Int)))
  let summary := raceBets.map (fun b =>
    SummaryEntry.mk b.user_id (userName db.users b.user_id)
      (calculate_points_for_bet b result : Int))
  ({ db with points := applyUpserts ups db.points }, summary)

/-- The engine as invoked when the race may lack a stored Result: the Python
function receives the result object from its caller; a missing result is
`none`, and the loop's first attribute access on it raises (modelled as
`Except.error`), while with no bets the loop body never runs. -/
def calculate_and_save_points_opt (race_id : Nat) (result : Option RaceResultRow) (db : DB) :
    Except Unit (DB × List SummaryEntry) :=
  match db.bets.filter (fun b => b.race_id = race_id), result with
  | [], _ => .ok (db, [])
  | _ :: _, none => .error ()
  | _ :: _, some r => .ok (calculate_and_save_points_sync race_id r db)

/-! ### Properties of the ledger upsert -/

theorem lookupFirst_upsert_self (l : List PointsRow) (uid rid : Nat) (v : Int) :
    lookupFirst (upsertPoints l uid rid v) uid rid = some v := by
  induction l with
  | nil => simp [upsertPoints, lookupFirst]
  | cons r rs ih =>
    by_cases h : r.user_id = uid ∧ r.race_id = rid
    · simp [upsertPoints, lookupFirst, h]
    · simp [upsertPoints, lookupFirst, h, ih]

theorem lookupFirst_upsert_ne (l : List PointsRow) (uid rid uid2 rid2 : Nat) (v : Int)
    (h : ¬(uid = uid2 ∧ rid = rid2)) :
    lookupFirst (upsertPoints l uid2 rid2 v) uid rid = lookupFirst l uid rid := by
  induction l with
  | nil =>
    have : ¬(uid2 = uid ∧ rid2 = rid) := fun hc => h ⟨hc.1.symm, hc.2.symm⟩
    simp [upsertPoints, lookupFirst, this]
  | cons r rs ih =>
    by_cases h2 : r.user_id = uid2 ∧ r.race_id = rid2
    · have hne : ¬(r.user_id = uid ∧ r.race_id = rid) := by
        rintro ⟨h1, h3⟩
        exact h ⟨h1.symm.trans h2.1, h3.symm.trans h2.2⟩
      have hsym : ¬(uid2 = uid ∧ rid2 = rid) := fun hc => h ⟨hc.1.symm, hc.2.symm⟩
      simp [upsertPoints, lookupFirst, h2, hne, hsym]
    · simp only [upsertPoints, if_neg h2]
      by_cases h1 : r.user_id = uid ∧ r.race_id = rid
      · simp [lookupFirst, h1]
      · simp [lookupFirst, h1, ih]

theorem upsert_of_lookupFirst_eq (l : List PointsRow) (uid rid : Nat) (v : Int)
    (h : lookupFirst l uid rid = some v) : upsertPoints l uid rid v = l := by
  induction l with
  | nil => simp [lookupFirst] at h
  | cons r rs ih =>
    by_cases h1 : r.user_id = uid ∧ r.race_id = rid
    · simp only [lookupFirst, if_pos h1, Option.some.injEq] at h
      simp only [upsertPoints, if_pos h1]
      have : ({ r with points := v } : PointsRow) = r := by
        cases r; simp_all
      rw [this]
    · simp only [lookupFirst, if_neg h1] at h
      simp [upsertPoints, h1, ih h]

theorem upsert_upsert_same (l : List PointsRow) (uid rid : Nat) (v1 v2 : Int) :
    upsertPoints (upsertPoints l uid rid v1) uid rid v2 = upsertPoints l uid rid v2 := by
  induction l with
  | nil => simp [upsertPoints]
  | cons r rs ih =>
    by_cases h : r.user_id = uid ∧ r.race_id = rid
    · simp [upsertPoints, h]
    · simp [upsertPoints, h, ih]

theorem upsert_comm (l : List PointsRow) (uid rid uid2 rid2 : Nat) (v v2 : Int)
    (hne : ¬(uid = uid2 ∧ rid = rid2)) (hs : (lookupFirst l uid rid).isSome) :
    upsertPoints (upsertPoints l uid rid v) uid2 rid2 v2 =
      upsertPoints (upsertPoints l uid2 rid2 v2) uid rid v := by
  induction l with
  | nil => simp [lookupFirst] at hs
  | cons r rs ih =>
    by_cases hA : r.user_id = uid ∧ r.race_id = rid
    · have hB : ¬(r.user_id = uid2 ∧ r.race_id = rid2) := by
        rintro ⟨h1, h2⟩
        exact hne ⟨hA.1.symm.trans h1, hA.2.symm.trans h2⟩
      simp [upsertPoints, hA, hB, hne]
    · simp only [lookupFirst, if_neg hA] at hs
      have hsym : ¬(uid2 = uid ∧ rid2 = rid) := fun hc => hne ⟨hc.1.symm, hc.2.symm⟩
      by_cases hB : r.user_id = uid2 ∧ r.race_id = rid2
      · simp [upsertPoints, hA, hB, hne, hsym]
      · simp [upsertPoints, hA, hB, ih hs]

theorem isSome_lookupFirst_upsert (l : List PointsRow) (uid rid uid2 rid2 : Nat) (v : Int)
    (hs : (lookupFirst l uid rid).isSome) :
    (lookupFirst (upsertPoints l uid2 rid2 v) uid rid).isSome := by
  by_cases h : uid = uid2 ∧ rid = rid2
  · rw [h.1, h.2, lookupFirst_upsert_self]; rfl
  · rw [lookupFirst_upsert_ne l uid rid uid2 rid2 v h]; exact hs

theorem length_upsert_of_isSome (l : List PointsRow) (uid rid : Nat) (v : Int)
    (hs : (lookupFirst l uid rid).isSome) :
    (upsertPoints l uid rid v).length = l.length := by
  induction l with
  | nil => simp [lookupFirst] at hs
  | cons r rs ih =>
    by_cases h : r.user_id = uid ∧ r.race_id = rid
    · simp [upsertPoints, h]
    · simp only [lookupFirst, if_neg h] at hs
      simp [upsertPoints, h, ih hs]

theorem applyUpserts_cons (u : (Nat × Nat) × Int) (ups : List ((Nat × Nat) × Int))
    (l : List PointsRow) :
    applyUpserts (u :: ups) l = applyUpserts ups (upsertPoints l u.1.1 u.1.2 u.2) := rfl

theorem isSome_lookupFirst_applyUpserts (ups : List ((Nat × Nat) × Int))
    (l : List PointsRow) (uid rid : Nat) (hs : (lookupFirst l uid rid).isSome) :
    (lookupFirst (applyUpserts ups l) uid rid).isSome := by
  induction ups generalizing l with
  | nil => exact hs
  | cons u rest ih =>
    rw [applyUpserts_cons]
    exact ih _ (isSome_lookupFirst_upsert l uid rid u.1.1 u.1.2 u.2 hs)

theorem lookupFirst_applyUpserts_not_mem (ups : List ((Nat × Nat) × Int))
    (l : List PointsRow) (uid rid : Nat)
    (h : ∀ u ∈ ups, ¬(uid = u.1.1 ∧ rid = u.1.2)) :
    lookupFirst (applyUpserts ups l) uid rid = lookupFirst l uid rid := by
  induction ups generalizing l with
  | nil => rfl
  | cons u rest ih =>
    rw [applyUpserts_cons, ih _ (fun w hw => h w (List.mem_cons_of_mem u hw)),
      lookupFirst_upsert_ne l uid rid u.1.1 u.1.2 u.2 (h u (List.mem_cons_self u rest))]

/-- An upsert at a key that is upserted again later in the list is absorbed
by the later writes: the fold overwrites it in place. -/
theorem applyUpserts_absorb (ups : List ((Nat × Nat) × Int)) (l : List PointsRow)
    (uid rid : Nat) (w : Int) (hmem : ∃ u ∈ ups, u.1 = (uid, rid))
    (hs : (lookupFirst l uid rid).isSome) :
    applyUpserts ups (upsertPoints l uid rid w) = applyUpserts ups l := by
  induction ups generalizing l w with
  | nil => obtain ⟨u, hu, _⟩ := hmem; exact absurd hu (List.not_mem_nil u)
  | cons u rest ih =>
    obtain ⟨⟨a, b⟩, c⟩ := u
    simp only [applyUpserts_cons]
    by_cases hk : (a, b) = (uid, rid)
    · rw [Prod.mk.injEq] at hk
      obtain ⟨rfl, rfl⟩ := hk
      rw [upsert_upsert_same]
    · have hmem2 : ∃ v ∈ rest, v.1 = (uid, rid) := by
        obtain ⟨v, hv, hveq⟩ := hmem
        rcases List.mem_cons.mp hv with h1 | h1
        · rw [h1] at hveq; exact absurd hveq hk
        · exact ⟨v, h1, hveq⟩
      have hne : ¬(uid = a ∧ rid = b) := by
        rintro ⟨h1, h2⟩
        exact hk (Prod.ext h1.symm h2.symm)
      rw [upsert_comm l uid rid a b w c hne hs]
      exact ih _ w hmem2 (isSome_lookupFirst_upsert l uid rid a b c hs)

/-- Re-upserting, at the head of a second fold pass, the value a key was
given before the first pass does not change the outcome of re-running the
pass. -/
theorem applyUpserts_reupsert (ups : List ((Nat × Nat) × Int)) (l : List PointsRow)
    (uid rid : Nat) (v : Int) (h : lookupFirst l uid rid = some v) :
    applyUpserts ups (upsertPoints (applyUpserts ups l) uid rid v) = applyUpserts ups l := by
  induction ups generalizing l v with
  | nil => exact upsert_of_lookupFirst_eq l uid rid v h
  | cons u rest ih =>
    obtain ⟨⟨a, b⟩, c⟩ := u
    simp only [applyUpserts_cons]
    by_cases hk : (a, b) = (uid, rid)
    · rw [Prod.mk.injEq] at hk
      obtain ⟨rfl, rfl⟩ := hk
      rw [upsert_upsert_same]
      exact ih _ c (lookupFirst_upsert_self l a b c)
    · have hne : ¬(uid = a ∧ rid = b) := by
        rintro ⟨h1, h2⟩
        exact hk (Prod.ext h1.symm h2.symm)
      have hlk : lookupFirst (upsertPoints l a b c) uid rid = some v := by
        rw [lookupFirst_upsert_ne l uid rid a b c hne]; exact h
      have hsX : (lookupFirst (applyUpserts rest (upsertPoints l a b c)) uid rid).isSome := by
        apply isSome_lookupFirst_applyUpserts
        rw [hlk]; rfl
      by_cases hmem : ∃ w ∈ rest, w.1 = (a, b)
      · have hsY : (lookupFirst (applyUpserts rest (upsertPoints l a b c)) a b).isSome := by
          apply isSome_lookupFirst_applyUpserts
          rw [lookupFirst_upsert_self]; rfl
        rw [applyUpserts_absorb rest _ a b c hmem
          (isSome_lookupFirst_upsert _ a b uid rid v hsY)]
        exact ih _ v hlk
      · have hnm : ∀ w ∈ rest, ¬(a = w.1.1 ∧ b = w.1.2) := by
          intro w hw hc
          exact hmem ⟨w, hw, (Prod.ext hc.1 hc.2).symm⟩
        have hnoop : upsertPoints
            (upsertPoints (applyUpserts rest (upsertPoints l a b c)) uid rid v) a b c =
            upsertPoints (applyUpserts rest (upsertPoints l a b c)) uid rid v := by
          apply upsert_of_lookupFirst_eq
          rw [lookupFirst_upsert_ne _ a b uid rid v
            (fun hc => hne ⟨hc.1.symm, hc.2.symm⟩)]
          rw [lookupFirst_applyUpserts_not_mem rest _ a b hnm]
          exact lookupFirst_upsert_self l a b c
        rw [hnoop]
        exact ih _ v hlk

/-- Running the same sequence of keyed upserts a second time on its own
output changes nothing. -/
theorem applyUpserts_idem (ups : List ((Nat × Nat) × Int)) (l : List PointsRow) :
    applyUpserts ups (applyUpserts ups l) = applyUpserts ups l := by
  cases ups with
  | nil => rfl
  | cons u rest =>
    rw [applyUpserts_cons, applyUpserts_cons]
    exact applyUpserts_reupsert rest (upsertPoints l u.1.1 u.1.2 u.2) u.1.1 u.1.2 u.2
      (lookupFirst_upsert_self l u.1.1 u.1.2 u.2)

/-- After a pass every upserted key has a ledger row. -/
theorem keys_present_after_applyUpserts (ups : List ((Nat × Nat) × Int)) (l : List PointsRow) :
    ∀ u ∈ ups, (lookupFirst (applyUpserts ups l) u.1.1 u.1.2).isSome := by
  induction ups generalizing l with
  | nil => intro u hu; exact absurd hu (List.not_mem_nil u)
  | cons w rest ih =>
    intro u hu
    rcases List.mem_cons.mp hu with h1 | h1
    · rw [applyUpserts_cons, h1]
      apply isSome_lookupFirst_applyUpserts
      rw [lookupFirst_upsert_self]; rfl
    · rw [applyUpserts_cons]
      exact ih _ u h1

/-- A pass whose keys are all already present only updates rows in place:
the row count is unchanged. -/
theorem length_applyUpserts_of_keys_present (ups : List ((Nat × Nat) × Int))
    (l : List PointsRow) (h : ∀ u ∈ ups, (lookupFirst l u.1.1 u.1.2).isSome) :
    (applyUpserts ups l).length = l.length := by
  induction ups generalizing l with
  | nil => rfl
  | cons u rest ih =>
    rw [applyUpserts_cons,
      ih _ (fun w hw => isSome_lookupFirst_upsert l w.1.1 w.1.2 u.1.1 u.1.2 u.2
        (h w (List.mem_cons_of_mem u hw))),
      length_upsert_of_isSome l u.1.1 u.1.2 u.2 (h u (List.mem_cons_self u rest))]

/-- C2: settlement is idempotent — settling the same race twice with the
same result and unchanged bets leaves an identical store after each run —
and re-settling with a corrected result only overwrites ledger values in
place, so the ledger row count is unchanged by the second settlement. -/
theorem settlement_idempotent_and_resettlement_in_place
    (db : DB) (race_id : Nat) (r1 r2 : RaceResultRow) :
    (calculate_and_save_points_sync race_id r1
        (calculate_and_save_points_sync race_id r1 db).1).1 =
      (calculate_and_save_points_sync race_id r1 db).1
    ∧ ((calculate_and_save_points_sync race_id r2
        (calculate_and_save_points_sync race_id r1 db).1).1).points.length =
      ((calculate_and_save_points_sync race_id r1 db).1).points.length := by
  constructor
  · simp only [calculate_and_save_points_sync]
    congr 1
    exact applyUpserts_idem _ _
  · simp only [calculate_and_save_points_sync]
    apply length_applyUpserts_of_keys_present
    intro u hu
    rw [List.mem_map] at hu
    obtain ⟨b, hb, rfl⟩ := hu
    exact keys_present_after_applyUpserts
      ((db.bets.filter (fun b => b.race_id = race_id)).map
        (fun b => ((b.user_id, race_id), (calculate_points_for_bet b r1 : Int))))
      db.points
      ((b.user_id, race_id), (calculate_points_for_bet b r1 : Int))
      (List.mem_map_of_mem _ hb)

/-- C3 (amended behavior): the engine performs no existence check on the
Result itself; invoked for a race with no stored Result, it fails only
incidentally (attribute access on a missing result) when at least one bet
exists, and silently succeeds with an empty summary when no bet exists. -/
theorem settle_missing_result_behavior (db : DB) (race_id : Nat) :
    (db.bets.filter (fun b => b.race_id = race_id) = [] →
      calculate_and_save_points_opt race_id none db = .ok (db, []))
    ∧ (db.bets.filter (fun b => b.race_id = race_id) ≠ [] →
      calculate_and_save_points_opt race_id none db = .error ()) := by
  constructor
  · intro h
    simp [calculate_and_save_points_opt, h]
  · intro h
    cases hf : db.bets.filter (fun b => b.race_id = race_id) with
    | nil => exact absurd hf h
    | cons x xs => simp [calculate_and_save_points_opt, hf]

/-- A store holding one race (id 1) with no Result, no bets, no ledger. -/
def dbNoBets : DB :=
  { users := [], races := [RaceRow.mk 1 "GP" "2025-01-01" "12:00" "UTC" "upcoming"],
    bets := [], results := [], points := [] }

/-- A store holding one race (id 1) with no Result and a single bet. -/
def dbOneBet : DB :=
  { users := [], races := [RaceRow.mk 1 "GP" "2025-01-01" "12:00" "UTC" "upcoming"],
    bets := [BetRow.mk 7 1 "VER" "HAM" "LEC" 0 0], results := [], points := [] }

/-- C3 counterexample to the claim as stated: for race 1 of `dbNoBets` no
Result is stored, yet settlement reports success (an empty summary), not an
error — the engine does not itself enforce the precondition. -/
theorem settle_missing_result_not_an_error :
    calculate_and_save_points_opt 1 none dbNoBets = .ok (dbNoBets, [])
    ∧ ∀ e : Unit, calculate_and_save_points_opt 1 none dbNoBets ≠ .error e := by
  refine ⟨rfl, fun e h => ?_⟩
  rw [show calculate_and_save_points_opt 1 none dbNoBets = .ok (dbNoBets, []) from rfl] at h
  exact Except.noConfusion h

/-- Witness for `settle_missing_result_behavior`: with one bet and no stored
Result the engine raises. -/
theorem settle_missing_result_behavior_witness :
    calculate_and_save_points_opt 1 none dbOneBet = .error () :=
  (settle_missing_result_behavior dbOneBet 1).2 (by decide)

/-! ## TimeGate (bet_service.is_betting_open)

`is_betting_open` builds `f"{race_date} {race_time}"`, parses it with
`strptime(.., "%Y-%m-%d %H:%M")`, localizes it via `pytz.timezone`,
subtracts `BET_CLOSING_OFFSET` minutes, and compares with the current
instant; any exception yields `False`.  The parser below mirrors CPython's
`_strptime` patterns for this format (%Y is exactly four digits; %m, %d,
%H, %M are one or two digits within their calendar ranges; the blank
matches one or more whitespace characters; no unconverted data may
remain), plus the `datetime` constructor's year/day-of-month validation.
Timezone resolution is abstracted as a partial map from tz names to a
fixed offset in minutes; instants are absolute minutes. -/

/-- A parsed civil date-time (what strptime hands to the datetime ctor). -/
structure CivilDT where
  year : Nat
  month : Nat
  day : Nat
  hour : Nat
  minute : Nat
  deriving DecidableEq, Repr

/-- Split a leading run of decimal digits. -/
def takeDigits : List Char → List Char × List Char
  | [] => ([], [])
  | c :: rest =>
    if c.isDigit then
      let p := takeDigits rest
      (c :: p.1, p.2)
    else ([], c :: rest)

/-- Split a leading run of whitespace. -/
def takeSpaces : List Char → Nat × List Char
  | [] => (0, [])
  | c :: rest =>
    if c.isWhitespace then
      let p := takeSpaces rest
      (p.1 + 1, p.2)
    else (0, c :: rest)

/-- Numeric value of a digit run. -/
def natOfDigits (ds : List Char) : Nat :=
  ds.foldl (fun a c => a * 10 + (c.toNat - 48)) 0

/-- Consume one expected character. -/
def expectChar (c : Char) : List Char → Option (List Char)
  | x :: xs => if x = c then some xs else none
  | [] => none

/-- Gregorian leap-year rule used by `datetime`. -/
def isLeap (y : Nat) : Bool :=
  y % 4 = 0 && (y % 100 ≠ 0 || y % 400 = 0)

/-- Days in a month, as validated by the `datetime` constructor. -/
def daysInMonth (y m : Nat) : Nat :=
  if m = 2 then (if isLeap y then 29 else 28)
  else if m = 4 ∨ m = 6 ∨ m = 9 ∨ m = 11 then 30
  else 31

/-- `datetime.strptime(s, "%Y-%m-%d %H:%M")`: `none` models ValueError. -/
def strptime_ymd_hm (s : String) : Option CivilDT := do
  let cs := s.data
  let (ys, cs) := takeDigits cs
  if ys.length ≠ 4 then none else do
  let y := natOfDigits ys
  let cs ← expectChar '-' cs
  let (mos, cs) := takeDigits cs
  let m := natOfDigits mos
  if ¬((mos.length = 1 ∨ mos.length = 2) ∧ 1 ≤ m ∧ m ≤ 12) then none else do
  let cs ← expectChar '-' cs
  let (ds, cs) := takeDigits cs
  let d := natOfDigits ds
  if ¬((ds.length = 1 ∨ ds.length = 2) ∧ 1 ≤ d ∧ d ≤ 31) then none else do
  let (nsp, cs) := takeSpaces cs
  if nsp = 0 then none else do
  let (hs, cs) := takeDigits cs
  let h := natOfDigits hs
  if ¬((hs.length = 1 ∨ hs.length = 2) ∧ h ≤ 23) then none else do
  let cs ← expectChar ':' cs
  let (mis, cs) := takeDigits cs
  let mi := natOfDigits mis
  if ¬((mis.length = 1 ∨ mis.length = 2) ∧ mi ≤ 59) then none else do
  if ¬cs.isEmpty then none else do
  if y = 0 then none else do
  if daysInMonth y m < d then none else do
  some ⟨y, m, d, h, mi⟩

/-- Day number of a proleptic Gregorian civil date (epoch 1970-01-01). -/
def daysFromCivil (y : Int) (m d : Nat) : Int :=
  let y2 : Int := if m ≤ 2 then y - 1 else y
  let era : Int := (if 0 ≤ y2 then y2 else y2 - 399) / 400
  let yoe : Int := y2 - era * 400
  let mp : Int := ((m : Int) + 9) % 12
  let doy : Int := (153 * mp + 2) / 5 + (d : Int) - 1
  let doe : Int := yoe * 365 + yoe / 4 - yoe / 100 + doy
  era * 146097 + doe - 719468

/-- Absolute instant (minutes) of a localized civil date-time, for a zone
at fixed offset `tzoff` minutes east of UTC. -/
def localizeMinutes (c : CivilDT) (tzoff : Int) : Int :=
  daysFromCivil (c.year : Int) c.month c.day * 1440
    + (c.hour : Int) * 60 + (c.minute : Int) - tzoff

/-- `bet_service.is_betting_open`.  `tzdb` models `pytz.timezone` (unknown
names resolve to `none`), `now` is the current absolute instant and
`closing_offset` is `BET_CLOSING_OFFSET`; every failure path of the
`try` block returns `False`. -/
def is_betting_open (tzdb : String → Option Int) (now closing_offset : Int)
    (race_date race_time race_timezone : String) : Bool :=
  match strptime_ymd_hm (race_date ++ " " ++ race_time), tzdb race_timezone with
  | some civil, some tzoff => decide (now < localizeMinutes civil tzoff - closing_offset)
  | _, _ => false

/-- C4: whenever the date, time and timezone resolve, the gate is open iff
`now` is strictly before `localize(raceDate+raceStartTime, tz)` minus the
closing offset; with offset 5 the gate is open at start−6 and closed at
start−4; with offset 0 it closes exactly at race start; a negative offset
moves the cutoff after the start, unclamped. -/
theorem betting_open_iff_before_cutoff (tzdb : String → Option Int)
    (now off : Int) (d t z : String) (civil : CivilDT) (tzoff : Int)
    (hp : strptime_ymd_hm (d ++ " " ++ t) = some civil) (hz : tzdb z = some tzoff) :
    (is_betting_open tzdb now off d t z = true ↔
      now < localizeMinutes civil tzoff - off)
    ∧ is_betting_open tzdb (localizeMinutes civil tzoff - 6) 5 d t z = true
    ∧ is_betting_open tzdb (localizeMinutes civil tzoff - 4) 5 d t z = false
    ∧ (is_betting_open tzdb now 0 d t z = true ↔ now < localizeMinutes civil tzoff)
    ∧ (∀ n : Int, 0 < n →
        (is_betting_open tzdb now (-n) d t z = true ↔
          now < localizeMinutes civil tzoff + n)) := by
  unfold is_betting_open
  rw [hp, hz]
  refine ⟨by simp, by simp, by simp, by simp, fun n _ => ?_⟩
  rw [decide_eq_true_iff]
  omega

/-- C5: any input whose combined date-time string does not parse, or whose
timezone does not resolve, yields `false` (the try/except returns a plain
`False`, never an exception). -/
theorem betting_open_fail_closed (tzdb : String → Option Int)
    (now off : Int) (d t z : String)
    (h : strptime_ymd_hm (d ++ " " ++ t) = none ∨ tzdb z = none) :
    is_betting_open tzdb now off d t z = false := by
  unfold is_betting_open
  rcases h with h | h
  · rw [h]
  · rw [h]
    cases strptime_ymd_hm (d ++ " " ++ t) <;> rfl

/-- A one-zone timezone database: only "UTC", at offset 0. -/
def tzdbUTC : String → Option Int := fun s => if s = "UTC" then some 0 else none

/-- Witness for `betting_open_iff_before_cutoff`: the 2025-03-16 15:00 UTC
race is open to bets six minutes before start under a 5-minute offset. -/
theorem betting_open_iff_before_cutoff_witness :
    is_betting_open tzdbUTC (localizeMinutes ⟨2025, 3, 16, 15, 0⟩ 0 - 6) 5
      "2025-03-16" "15:00" "UTC" = true :=
  (betting_open_iff_before_cutoff tzdbUTC 0 5 "2025-03-16" "15:00" "UTC"
    ⟨2025, 3, 16, 15, 0⟩ 0 (by decide) (by decide)).2.1

/-- Witness for `betting_open_fail_closed`: a malformed date is closed. -/
theorem betting_open_fail_closed_witness :
    is_betting_open tzdbUTC 0 5 "not-a-date" "12:00" "UTC" = false :=
  betting_open_fail_closed tzdbUTC 0 5 "not-a-date" "12:00" "UTC" (Or.inl (by decide))

/-! ## A stable descending sort (the ORDER BY ... DESC of the queries)

SQLite's ORDER BY is modelled as a stable insertion sort parameterized by
a strict "goes before" test `gt`; an element is inserted before the first
strictly smaller one, so equal keys keep their original order (the
deterministic tie order the spec asks of a given snapshot). -/

/-- Insert `x` before the first element it strictly precedes. -/
def insertDescBy (gt : α → α → Bool) (x : α) : List α → List α
  | [] => [x]
  | y :: ys => if gt x y then x :: y :: ys else y :: insertDescBy gt x ys

/-- Stable insertion sort with strict test `gt`. -/
def sortDescBy (gt : α → α → Bool) (l : List α) : List α :=
  l.foldr (insertDescBy gt) []

theorem mem_insertDescBy (gt : α → α → Bool) (x z : α) (l : List α) :
    z ∈ insertDescBy gt x l ↔ z = x ∨ z ∈ l := by
  induction l with
  | nil => simp [insertDescBy]
  | cons y ys ih =>
    by_cases h : gt x y
    · simp [insertDescBy, h]
    · simp only [insertDescBy, if_neg h, List.mem_cons, ih]
      tauto

theorem mem_sortDescBy (gt : α → α → Bool) (z : α) (l : List α) :
    z ∈ sortDescBy gt l ↔ z ∈ l := by
  induction l with
  | nil => simp [sortDescBy]
  | cons y ys ih =>
    simp only [sortDescBy, List.foldr_cons]
    rw [mem_insertDescBy]
    simp only [sortDescBy] at ih
    rw [ih, List.mem_cons]

theorem length_insertDescBy (gt : α → α → Bool) (x : α) (l : List α) :
    (insertDescBy gt x l).length = l.length + 1 := by
  induction l with
  | nil => rfl
  | cons y ys ih =>
    by_cases h : gt x y
    · simp [insertDescBy, h]
    · simp [insertDescBy, h, ih]

theorem length_sortDescBy (gt : α → α → Bool) (l : List α) :
    (sortDescBy gt l).length = l.length := by
  induction l with
  | nil => rfl
  | cons y ys ih =>
    simp only [sortDescBy, List.foldr_cons] at *
    rw [length_insertDescBy, ih, List.length_cons]

theorem pairwise_insertDescBy (gt : α → α → Bool)
    (hasym : ∀ a b, gt a b = true → gt b a = false)
    (htrans : ∀ a b c, gt b a = false → gt c b = false → gt c a = false)
    (x : α) (l : List α) (hl : l.Pairwise (fun a b => gt b a = false)) :
    (insertDescBy gt x l).Pairwise (fun a b => gt b a = false) := by
  induction l with
  | nil => simp [insertDescBy]
  | cons y ys ih =>
    rw [List.pairwise_cons] at hl
    by_cases h : gt x y
    · rw [insertDescBy, if_pos h, List.pairwise_cons]
      refine ⟨?_, List.pairwise_cons.mpr hl⟩
      intro z hz
      rcases List.mem_cons.mp hz with rfl | hz2
      · exact hasym x z h
      · exact htrans x y z (hasym x y h) (hl.1 z hz2)
    · rw [insertDescBy, if_neg h, List.pairwise_cons]
      refine ⟨?_, ih hl.2⟩
      intro z hz
      rcases (mem_insertDescBy gt x z ys).mp hz with rfl | hz2
      · exact Bool.eq_false_iff.mpr h
      · exact hl.1 z hz2

theorem pairwise_sortDescBy (gt : α → α → Bool)
    (hasym : ∀ a b, gt a b = true → gt b a = false)
    (htrans : ∀ a b c, gt b a = false → gt c b = false → gt c a = false)
    (l : List α) :
    (sortDescBy gt l).Pairwise (fun a b => gt b a = false) := by
  induction l with
  | nil => exact List.Pairwise.nil
  | cons y ys ih =>
    exact pairwise_insertDescBy gt hasym htrans y (sortDescBy gt ys) ih

/-- Python's `enumerate(results, n)`. -/
def enumerateFrom (n : Nat) : List α → List (Nat × α)
  | [] => []
  | x :: xs => (n, x) :: enumerateFrom (n + 1) xs

theorem length_enumerateFrom (n : Nat) (l : List α) :
    (enumerateFrom n l).length = l.length := by
  induction l generalizing n with
  | nil => rfl
  | cons x xs ih => simp [enumerateFrom, ih]

theorem getElem_enumerateFrom (n : Nat) (l : List α) (i : Nat)
    (hi : i < (enumerateFrom n l).length) (hi2 : i < l.length) :
    (enumerateFrom n l).get ⟨i, hi⟩ = (n + i, l.get ⟨i, hi2⟩) := by
  induction l generalizing n i with
  | nil => exact absurd hi2 (by simp)
  | cons x xs ih =>
    cases i with
    | zero => simp [enumerateFrom]
    | succ j =>
      have hj : j < (enumerateFrom (n + 1) xs).length := by
        simp only [enumerateFrom, List.length_cons] at hi
        omega
      have hj2 : j < xs.length := by
        simp only [List.length_cons] at hi2
        omega
      have := ih (n + 1) j hj hj2
      simp only [enumerateFrom, List.get_cons_succ, this]
      congr 1
      omega

theorem enumerateFrom_take (n k : Nat) (l : List α) :
    enumerateFrom n (l.take k) = (enumerateFrom n l).take k := by
  induction l generalizing n k with
  | nil => simp [enumerateFrom]
  | cons x xs ih =>
    cases k with
    | zero => simp [enumerateFrom]
    | succ m => simp [enumerateFrom, ih]

theorem snd_mem_of_mem_enumerateFrom (n : Nat) (l : List α) (p : Nat × α)
    (hp : p ∈ enumerateFrom n l) : p.2 ∈ l := by
  induction l generalizing n with
  | nil => exact absurd hp (List.not_mem_nil p)
  | cons x xs ih =>
    rcases List.mem_cons.mp hp with rfl | h2
    · exact List.mem_cons_self x xs
    · exact List.mem_cons_of_mem x (ih (n + 1) h2)

/-! ## Leaderboard (scoring_service) -/

/-- Sum of a user's ledger rows (`func.sum` with `coalesce .. 0`). -/
def userTotal (points : List PointsRow) (uid : Nat) : Int :=
  ((points.filter (fun p => p.user_id = uid)).map PointsRow.points).sum

/-- `scoring_service._get_user_total_points_sync`: `int(result) if result
else 0` — the SQL sum is NULL with no rows and the Python guard maps both
NULL and 0 to 0, so the value is the coalesced sum. -/
def get_user_total_points_sync (db : DB) (uid : Nat) : Int :=
  userTotal db.points uid

/-- Python string truthiness fallback `a or b` for optional text. -/
def orElseStr (a : Option String) (b : String) : String :=
  match a with
  | some s => if s = "" then b else s
  | none => b

/-- The `full_name or username or f"User {telegram_id}"` display fallback. -/
def displayName (full_name username : Option String) (tg : Int) : String :=
  orElseStr full_name (orElseStr username ("User " ++ toString tg))

/-- One dict of the list built by `_get_leaderboard_sync`. -/
structure LeaderRow where
  rank : Nat
  user_id : Nat
  telegram_id : Int
  username : Option String
  full_name : String
  total_points : Int
  deriving DecidableEq, Repr

/-- `if limit:` followed by `query.limit(limit)`: `None` and `0` are falsy
and leave the query unbounded; SQLite treats a negative LIMIT as
unbounded; a positive one truncates. -/
def pyLimit (limit : Option Int) (l : List α) : List α :=
  match limit with
  | none => l
  | some n => if n = 0 then l else if n < 0 then l else l.take n.toNat

/-- `scoring_service._get_leaderboard_sync`: outer-join users with their
coalesced point sums, order by the sum descending, apply the optional
limit, then enumerate ranks from 1. -/
def get_leaderboard_sync (limit : Option Int) (db : DB) : List LeaderRow :=
  let totals := db.users.map (fun u => (u, userTotal db.points u.id))
  let sorted := sortDescBy (fun a b => decide (b.2 < a.2)) totals
  let limited := pyLimit limit sorted
  (enumerateFrom 1 limited).map (fun p =>
    LeaderRow.mk p.1 p.2.1.id p.2.1.telegram_id p.2.1.username
      (displayName p.2.1.full_name p.2.1.username p.2.1.telegram_id) p.2.2)

/-- The strict comparison used to sort leaderboard rows never holds both
ways. -/
theorem totals_gt_asym (a b : UserRow × Int) :
    decide (b.2 < a.2) = true → decide (a.2 < b.2) = false := by
  simp only [decide_eq_true_eq, decide_eq_false_iff_not]
  omega

/-- The non-strict complement of the leaderboard comparison is transitive. -/
theorem totals_gt_trans (a b c : UserRow × Int) :
    decide (a.2 < b.2) = false → decide (b.2 < c.2) = false →
    decide (a.2 < c.2) = false := by
  simp only [decide_eq_false_iff_not]
  omega

theorem pyLimit_sublist (limit : Option Int) (l : List α) :
    (pyLimit limit l).Sublist l := by
  match limit with
  | none => exact List.Sublist.refl l
  | some n =>
    simp only [pyLimit]
    split_ifs
    · exact List.Sublist.refl l
    · exact List.Sublist.refl l
    · exact List.take_sublist n.toNat l

theorem pairwise_enumerateFrom (R : α → α → Prop) (n : Nat) (l : List α)
    (hl : l.Pairwise R) :
    (enumerateFrom n l).Pairwise (fun p q => R p.2 q.2) := by
  induction l generalizing n with
  | nil => exact List.Pairwise.nil
  | cons x xs ih =>
    rw [List.pairwise_cons] at hl
    rw [enumerateFrom, List.pairwise_cons]
    exact ⟨fun q hq => hl.1 q.2 (snd_mem_of_mem_enumerateFrom (n + 1) xs q hq), ih (n + 1) hl.2⟩

/-- C6: the leaderboard is sorted non-increasing by total points, each
row's total is the coalesced sum of that participant's ledger rows, ranks
are dense 1-based positions in sorted order, a positive limit takes the
first rows of the full output, and with exactly two participants of
distinct totals `limit = 1` yields one row: the higher one at rank 1. -/
theorem get_leaderboard_properties (db : DB) (limit : Option Int) :
    (get_leaderboard_sync limit db).Pairwise
      (fun a b => b.total_points ≤ a.total_points)
    ∧ (∀ row ∈ get_leaderboard_sync limit db,
        row.total_points = userTotal db.points row.user_id)
    ∧ (∀ i (hi : i < (get_leaderboard_sync limit db).length),
        ((get_leaderboard_sync limit db).get ⟨i, hi⟩).rank = i + 1)
    ∧ (∀ n : Int, 0 < n →
        get_leaderboard_sync (some n) db = (get_leaderboard_sync none db).take n.toNat)
    ∧ (∀ u1 u2 : UserRow, db.users = [u1, u2] →
        userTotal db.points u2.id < userTotal db.points u1.id →
        get_leaderboard_sync (some 1) db =
          [LeaderRow.mk 1 u1.id u1.telegram_id u1.username
            (displayName u1.full_name u1.username u1.telegram_id)
            (userTotal db.points u1.id)]) := by
  refine ⟨?_, ?_, ?_, ?_, ?_⟩
  · rw [get_leaderboard_sync, List.pairwise_map]
    apply pairwise_enumerateFrom (fun a b : UserRow × Int => b.2 ≤ a.2)
    have hs := pairwise_sortDescBy (fun a b : UserRow × Int => decide (b.2 < a.2))
      totals_gt_asym totals_gt_trans (db.users.map (fun u => (u, userTotal db.points u.id)))
    have hlim := List.Pairwise.sublist (pyLimit_sublist limit _) hs
    exact hlim.imp (fun h => by
      rw [decide_eq_false_iff_not] at h
      omega)
  · intro row hrow
    rw [get_leaderboard_sync, List.mem_map] at hrow
    obtain ⟨p, hp, rfl⟩ := hrow
    have hp2 : p.2 ∈ pyLimit limit (sortDescBy (fun a b : UserRow × Int => decide (b.2 < a.2))
        (db.users.map (fun u => (u, userTotal db.points u.id)))) :=
      snd_mem_of_mem_enumerateFrom 1 _ p hp
    have hp3 := (pyLimit_sublist limit _).subset hp2
    rw [mem_sortDescBy, List.mem_map] at hp3
    obtain ⟨u, _, hu⟩ := hp3
    simp only [← hu]
  · intro i hi
    have hi0 : i < ((enumerateFrom 1 (pyLimit limit
        (sortDescBy (fun a b : UserRow × Int => decide (b.2 < a.2))
          (db.users.map (fun u => (u, userTotal db.points u.id)))))).map (fun p =>
        LeaderRow.mk p.1 p.2.1.id p.2.1.telegram_id p.2.1.username
          (displayName p.2.1.full_name p.2.1.username p.2.1.telegram_id) p.2.2)).length := hi
    have hi1 : i < (enumerateFrom 1 (pyLimit limit
        (sortDescBy (fun a b : UserRow × Int => decide (b.2 < a.2))
          (db.users.map (fun u => (u, userTotal db.points u.id)))))).length := by
      rw [List.length_map] at hi0
      exact hi0
    have hi2 : i < (pyLimit limit (sortDescBy (fun a b : UserRow × Int => decide (b.2 < a.2))
        (db.users.map (fun u => (u, userTotal db.points u.id))))).length := by
      rw [length_enumerateFrom] at hi1
      exact hi1
    show (((enumerateFrom 1 (pyLimit limit
        (sortDescBy (fun a b : UserRow × Int => decide (b.2 < a.2))
          (db.users.map (fun u => (u, userTotal db.points u.id)))))).map (fun p =>
        LeaderRow.mk p.1 p.2.1.id p.2.1.telegram_id p.2.1.username
          (displayName p.2.1.full_name p.2.1.username p.2.1.telegram_id) p.2.2)).get
        ⟨i, hi0⟩).rank = i + 1
    rw [List.get_map, getElem_enumerateFrom 1 _ i hi1 hi2]
    simp [Nat.add_comm]
  · intro n hn
    have h0 : ¬(n = 0) := by omega
    have h1 : ¬(n < 0) := by omega
    show ((enumerateFrom 1 (pyLimit (some n)
        (sortDescBy (fun a b : UserRow × Int => decide (b.2 < a.2))
          (db.users.map (fun u => (u, userTotal db.points u.id)))))).map (fun p =>
        LeaderRow.mk p.1 p.2.1.id p.2.1.telegram_id p.2.1.username
          (displayName p.2.1.full_name p.2.1.username p.2.1.telegram_id) p.2.2)) = _
    simp only [pyLimit, if_neg h0, if_neg h1]
    rw [enumerateFrom_take, List.map_take]
    rfl
  · intro u1 u2 hu ht
    rw [get_leaderboard_sync, hu]
    have hgt : decide ((u2, userTotal db.points u2.id).2 < (u1, userTotal db.points u1.id).2) = true := by
      simpa using ht
    simp only [List.map_cons, List.map_nil, sortDescBy, List.foldr_cons, List.foldr_nil,
      insertDescBy, hgt, if_true, pyLimit]
    norm_num [enumerateFrom, List.take]

/-- Two users where user 1 (total 5) outscores user 2 (total 2) on race 1. -/
def dbLB : DB :=
  { users := [UserRow.mk 1 100 none (some "Alice"), UserRow.mk 2 200 none (some "Bob")],
    races := [], bets := [], results := [],
    points := [PointsRow.mk 1 1 5, PointsRow.mk 2 1 2] }

/-- Witness for `get_leaderboard_properties`: with two settled participants,
limit 1 returns exactly the higher-scoring one at rank 1. -/
theorem get_leaderboard_properties_witness :
    get_leaderboard_sync (some 1) dbLB =
      [LeaderRow.mk 1 1 100 none (displayName (some "Alice") none 100)
        (userTotal dbLB.points 1)] :=
  (get_leaderboard_properties dbLB (some 1)).2.2.2.2
    (UserRow.mk 1 100 none (some "Alice")) (UserRow.mk 2 200 none (some "Bob"))
    rfl (by decide)

/-- C10: a limit of 0 (like `None`) is falsy for the `if limit:` guard, so
the full leaderboard is returned; a negative limit reaches SQLite, which
ignores it; only a strictly positive limit truncates. -/
theorem leaderboard_limit_zero_full (db : DB) :
    get_leaderboard_sync (some 0) db = get_leaderboard_sync none db
    ∧ (∀ n : Int, n < 0 → get_leaderboard_sync (some n) db = get_leaderboard_sync none db)
    ∧ (∀ n : Int, 0 < n →
        (get_leaderboard_sync (some n) db).length =
          min n.toNat (get_leaderboard_sync none db).length) := by
  refine ⟨rfl, fun n hn => ?_, fun n hn => ?_⟩
  · have h0 : ¬(n = 0) := by omega
    simp only [get_leaderboard_sync, pyLimit, if_neg h0, if_pos hn]
  · have h0 : ¬(n = 0) := by omega
    have h1 : ¬(n < 0) := by omega
    simp only [get_leaderboard_sync, pyLimit, if_neg h0, if_neg h1,
      List.length_map, length_enumerateFrom, List.length_take]

/-- Witness for `leaderboard_limit_zero_full`: limit −1 also returns the
complete leaderboard. -/
theorem leaderboard_limit_zero_full_witness :
    get_leaderboard_sync (some (-1)) dbLB = get_leaderboard_sync none dbLB :=
  (leaderboard_limit_zero_full dbLB).2.1 (-1) (by decide)

/-! ## Prediction store (bet_service) -/

/-- `bet_service._create_bet_sync`'s table effect: update the first bet row
for (user, race) — all three picks and `updated_at` together, keeping
`created_at` — or append a fresh row with both timestamps set to now. -/
def upsertBet (bets : List BetRow) (uid rid : Nat) (d1 d2 d3 : String) (now : Nat) :
    List BetRow :=
  match bets with
  | [] => [BetRow.mk uid rid d1 d2 d3 now now]
  | b :: bs =>
    if b.user_id = uid ∧ b.race_id = rid then
      { b with driver_1st := d1, driver_2nd := d2, driver_3rd := d3, updated_at := now } :: bs
    else b :: upsertBet bs uid rid d1 d2 d3 now

/-- `bet_service._create_bet_sync` on the store. -/
def create_bet_sync (uid rid : Nat) (d1 d2 d3 : String) (now : Nat) (db : DB) : DB :=
  { db with bets := upsertBet db.bets uid rid d1 d2 d3 now }

/-- `bet_service._get_user_bets_sync`: the user's bets ordered by
`created_at` descending. -/
def get_user_bets_sync (db : DB) (uid : Nat) : List BetRow :=
  sortDescBy (fun a b => decide (b.created_at < a.created_at))
    (db.bets.filter (fun b => b.user_id = uid))

/-- The bet rows of one (user, race) pair. -/
def pairBets (bets : List BetRow) (uid rid : Nat) : List BetRow :=
  bets.filter (fun b => b.user_id = uid ∧ b.race_id = rid)

/-- Run a sequence of `create_or_update_bet` calls (triple and timestamp)
for one (user, race) pair. -/
def applyBetCalls (uid rid : Nat) (calls : List (String × String × String × Nat))
    (db : DB) : DB :=
  calls.foldl (fun acc c => create_bet_sync uid rid c.1 c.2.1 c.2.2.1 c.2.2.2 acc) db

/-- The empty store. -/
def emptyDB : DB := ⟨[], [], [], [], []⟩

theorem pairBets_upsert (bets : List BetRow) (uid rid : Nat) (d1 d2 d3 : String) (now : Nat)
    (h : (pairBets bets uid rid).length ≤ 1) :
    ∃ ca, pairBets (upsertBet bets uid rid d1 d2 d3 now) uid rid =
      [BetRow.mk uid rid d1 d2 d3 ca now] := by
  induction bets with
  | nil =>
    refine ⟨now, ?_⟩
    simp [pairBets, upsertBet]
  | cons b bs ih =>
    obtain ⟨bu, br, b1, b2, b3, bc, bt⟩ := b
    by_cases hm : bu = uid ∧ br = rid
    · obtain ⟨rfl, rfl⟩ := hm
      refine ⟨bc, ?_⟩
      have hbs : pairBets bs bu br = [] := by
        have hlen : (pairBets (BetRow.mk bu br b1 b2 b3 bc bt :: bs) bu br).length =
            (pairBets bs bu br).length + 1 := by
          simp [pairBets]
        rw [hlen] at h
        exact List.length_eq_zero.mp (by omega)
      simp only [pairBets] at hbs ⊢
      simp only [Bool.decide_and] at hbs
      simp [upsertBet, List.filter_cons, hbs]
    · have hbs : (pairBets bs uid rid).length ≤ 1 := by
        have heq : pairBets (BetRow.mk bu br b1 b2 b3 bc bt :: bs) uid rid =
            pairBets bs uid rid := by
          simp [pairBets, List.filter_cons, hm]
        rw [heq] at h
        exact h
      obtain ⟨ca, hca⟩ := ih hbs
      refine ⟨ca, ?_⟩
      simp only [pairBets] at hca ⊢
      simp only [Bool.decide_and] at hca
      simp [upsertBet, hm, List.filter_cons, hca]

theorem pairBets_applyBetCalls_le_one (uid rid : Nat)
    (calls : List (String × String × String × Nat)) (db : DB)
    (hinv : (pairBets db.bets uid rid).length ≤ 1) :
    (pairBets (applyBetCalls uid rid calls db).bets uid rid).length ≤ 1 := by
  induction calls generalizing db with
  | nil => exact hinv
  | cons c cs ih =>
    have h1 : (pairBets (create_bet_sync uid rid c.1 c.2.1 c.2.2.1 c.2.2.2 db).bets
        uid rid).length ≤ 1 := by
      obtain ⟨ca, hca⟩ := pairBets_upsert db.bets uid rid c.1 c.2.1 c.2.2.1 c.2.2.2 hinv
      rw [show (create_bet_sync uid rid c.1 c.2.1 c.2.2.1 c.2.2.2 db).bets =
        upsertBet db.bets uid rid c.1 c.2.1 c.2.2.1 c.2.2.2 from rfl, hca]
      simp
    exact ih _ h1

/-- C7: after any nonempty sequence of upserts for one (participant, race)
pair — starting from a store respecting the at-most-one-row invariant —
exactly one bet row exists for the pair, and it carries precisely the
triple (and timestamp) of the final call, all three picks replaced
together. -/
theorem upsert_prediction_uniqueness (db : DB) (uid rid : Nat)
    (init : List (String × String × String × Nat)) (c : String × String × String × Nat)
    (hinv : (pairBets db.bets uid rid).length ≤ 1) :
    ∃ ca, pairBets (applyBetCalls uid rid (init ++ [c]) db).bets uid rid =
      [BetRow.mk uid rid c.1 c.2.1 c.2.2.1 ca c.2.2.2] := by
  have hmid := pairBets_applyBetCalls_le_one uid rid init db hinv
  obtain ⟨ca, hca⟩ := pairBets_upsert (applyBetCalls uid rid init db).bets uid rid
    c.1 c.2.1 c.2.2.1 c.2.2.2 hmid
  refine ⟨ca, ?_⟩
  rw [show applyBetCalls uid rid (init ++ [c]) db =
    create_bet_sync uid rid c.1 c.2.1 c.2.2.1 c.2.2.2 (applyBetCalls uid rid init db) by
      simp [applyBetCalls, List.foldl_append]]
  exact hca

/-- Witness for `upsert_prediction_uniqueness`: two successive upserts of
the pair (1, 1) leave one row holding the second triple. -/
theorem upsert_prediction_uniqueness_witness :
    ∃ ca, pairBets (applyBetCalls 1 1
        [("VER", "HAM", "LEC", 0), ("ALO", "STR", "GAS", 5)] emptyDB).bets 1 1 =
      [BetRow.mk 1 1 "ALO" "STR" "GAS" ca 5] :=
  upsert_prediction_uniqueness emptyDB 1 1 [("VER", "HAM", "LEC", 0)]
    ("ALO", "STR", "GAS", 5) (by decide)

/-- User 1 bets on race 1 at tick 0, on race 2 at tick 5, then updates the
race-1 bet at tick 10. -/
def dbC8 : DB :=
  create_bet_sync 1 1 "ALO" "STR" "GAS" 10
    (create_bet_sync 1 2 "NOR" "PIA" "RUS" 5
      (create_bet_sync 1 1 "VER" "HAM" "LEC" 0 emptyDB))

/-- C8 counterexample: the listing is ordered by `created_at` only, so the
bet updated last (race 1, touched at tick 10) is listed after the untouched
race-2 bet (tick 5) — the listing is not most-recently-touched first. -/
theorem list_bets_not_most_recently_touched_first :
    ¬ (∀ i j : Fin (get_user_bets_sync dbC8 1).length, i.1 ≤ j.1 →
        ((get_user_bets_sync dbC8 1).get j).updated_at ≤
          ((get_user_bets_sync dbC8 1).get i).updated_at) := by
  decide

/-- C8 (amended): `listPredictions` orders a participant's bets by their
creation timestamp, newest created first; membership is exactly the user's
bet rows (updates keep `created_at`, hence do not move a row forward). -/
theorem list_bets_sorted_by_creation (db : DB) (uid : Nat) :
    (get_user_bets_sync db uid).Pairwise (fun a b => b.created_at ≤ a.created_at)
    ∧ (∀ b : BetRow, b ∈ get_user_bets_sync db uid ↔ b ∈ db.bets ∧ b.user_id = uid) := by
  constructor
  · have hp := pairwise_sortDescBy (fun a b : BetRow => decide (b.created_at < a.created_at))
      (fun a b h => by
        simp only [decide_eq_true_eq] at h
        simp only [decide_eq_false_iff_not]
        omega)
      (fun a b c h1 h2 => by
        simp only [decide_eq_false_iff_not] at h1 h2 ⊢
        omega)
      (db.bets.filter (fun b => b.user_id = uid))
    exact hp.imp (fun h => by
      rw [decide_eq_false_iff_not] at h
      omega)
  · intro b
    rw [get_user_bets_sync, mem_sortDescBy, List.mem_filter]
    simp

/-! ## Race deletion (race_service._delete_race_sync)

`session.delete(race)` cascades through the ORM relationships declared on
`Race` — `bets` and `result`, both `cascade="all, delete-orphan"` — while
`PointsPerRace` has no relationship from `Race` and is untouched. -/

/-- `race_service._delete_race_sync`: `first()` the race, return `False`
when absent, else ORM-delete it (cascading to its bets and result rows)
and return `True`. -/
def delete_race_sync (rid : Nat) (db : DB) : DB × Bool :=
  if (db.races.find? (fun r => r.id = rid)).isSome then
    ({ db with
        races := db.races.filter (fun r => ¬(r.id = rid)),
        bets := db.bets.filter (fun b => ¬(b.race_id = rid)),
        results := db.results.filter (fun x => ¬(x.race_id = rid)) }, true)
  else (db, false)

/-- One dict of `_get_user_points_per_race_sync`. -/
structure RacePointsEntry where
  race_id : Nat
  points : Int
  race_name : String
  race_date : String
  deriving DecidableEq, Repr

/-- `scoring_service._get_user_points_per_race_sync`: inner-join the user's
ledger rows with the races table, ordered by race date descending. -/
def get_user_points_per_race_sync (db : DB) (uid : Nat) : List RacePointsEntry :=
  sortDescBy (fun a b => decide (b.race_date < a.race_date))
    ((db.points.filter (fun p => p.user_id = uid)).flatMap (fun p =>
      (db.races.filter (fun r => r.id = p.race_id)).map (fun r =>
        RacePointsEntry.mk p.race_id p.points r.name r.date)))

/-- C9: deleting a race cascades to its bets and its result but leaves the
ledger untouched, so a participant's total still includes the settled
points while the per-race breakdown (which joins against races) no longer
lists the deleted race. -/
theorem delete_race_frame (db : DB) (uid rid : Nat) :
    get_user_total_points_sync (delete_race_sync rid db).1 uid =
      get_user_total_points_sync db uid
    ∧ (delete_race_sync rid db).1.points = db.points
    ∧ (∀ e ∈ get_user_points_per_race_sync (delete_race_sync rid db).1 uid,
        e.race_id ≠ rid)
    ∧ ((db.races.find? (fun r => r.id = rid)).isSome →
        (∀ b ∈ (delete_race_sync rid db).1.bets, b.race_id ≠ rid)
        ∧ (∀ x ∈ (delete_race_sync rid db).1.results, x.race_id ≠ rid)) := by
  have hpts : (delete_race_sync rid db).1.points = db.points := by
    unfold delete_race_sync
    split_ifs <;> rfl
  refine ⟨?_, hpts, ?_, ?_⟩
  · rw [get_user_total_points_sync, get_user_total_points_sync, userTotal, userTotal, hpts]
  · intro e he heq
    rw [get_user_points_per_race_sync, mem_sortDescBy, List.mem_flatMap] at he
    obtain ⟨p, _, hp2⟩ := he
    rw [List.mem_map] at hp2
    obtain ⟨r, hr, hre⟩ := hp2
    rw [List.mem_filter, decide_eq_true_eq] at hr
    have hrid : r.id = rid := by
      have h1 : e.race_id = p.race_id := by rw [← hre]
      omega
    by_cases hf : (db.races.find? (fun r2 => r2.id = rid)).isSome
    · have hr2 : (delete_race_sync rid db).1.races =
          db.races.filter (fun r2 => ¬(r2.id = rid)) := by
        unfold delete_race_sync
        rw [if_pos hf]

      rw [hr2, List.mem_filter] at hr
      have := hr.1.2
      simp only [decide_not, Bool.not_eq_true', decide_eq_false_iff_not] at this
      exact this hrid
    · have hr2 : (delete_race_sync rid db).1.races = db.races := by
        unfold delete_race_sync
        rw [if_neg hf]
      rw [hr2] at hr
      have hnone := List.find?_eq_none.mp (Option.not_isSome_iff_eq_none.mp hf) r hr.1
      rw [decide_eq_true_eq] at hnone
      exact hnone hrid
  · intro hfound
    have hb2 : (delete_race_sync rid db).1.bets =
        db.bets.filter (fun b => ¬(b.race_id = rid)) := by
      unfold delete_race_sync
      rw [if_pos hfound]
    have hx2 : (delete_race_sync rid db).1.results =
        db.results.filter (fun x => ¬(x.race_id = rid)) := by
      unfold delete_race_sync
      rw [if_pos hfound]
    constructor
    · intro b hb
      rw [hb2, List.mem_filter] at hb
      have := hb.2
      simp only [decide_not, Bool.not_eq_true', decide_eq_false_iff_not] at this
      exact this
    · intro x hx
      rw [hx2, List.mem_filter] at hx
      have := hx.2
      simp only [decide_not, Bool.not_eq_true', decide_eq_false_iff_not] at this
      exact this

/-- Witness for `delete_race_frame`: deleting race 1 of `dbOneBet` (found,
so the cascade fires) removes its bets and results. -/
theorem delete_race_frame_witness :
    (∀ b ∈ (delete_race_sync 1 dbOneBet).1.bets, b.race_id ≠ 1)
    ∧ (∀ x ∈ (delete_race_sync 1 dbOneBet).1.results, x.race_id ≠ 1) :=
  (delete_race_frame dbOneBet 7 1).2.2.2 (by decide)

end F1Bot
